import Mathlib

/-!
Shallow embedding of the bootstrap confidence-interval engine of the
MiscScripts repository (bootstrap_radon_levels.py,
bootstrap_radon_levels_KS.py, bootstrap_radon_levels_KS_FINAL.py).

Scalars are modelled as rationals.  Randomness is modelled by an
injectable random source `g : ℕ → ℕ` (a stream of raw random numbers),
as the spec's "deterministic interfaces should accept an injectable
random source" suggests; `np.random.choice(..., replace=False)` is
embedded as drawing pairwise-distinct positions of the population
array driven by that stream.
-/

namespace Radon

/-- Error kinds of the embedded scripts: `np.random.choice` raises when a
without-replacement draw exceeds the population
(`InsufficientPopulationError` in the spec), a Python division by zero in
the exceedance fraction, and a percentile of an empty series
(`EmptySeriesError` in the spec). -/
inductive RunError where
  | insufficientPopulation
  | divisionByZero
  | emptySeries
deriving DecidableEq, Repr

/-! ### np.percentile (default linear interpolation) -/

/-- The sorting step of `np.percentile`: sort the data ascending. -/
def sortSeries (xs : List ℚ) : List ℚ := List.insertionSort (· ≤ ·) xs

/-- `np.percentile`'s linear interpolation on a sorted array `s` at virtual
rank `h`: the value `s[⌊h⌋] + (h - ⌊h⌋) * (s[⌈h⌉] - s[⌊h⌋])`. -/
def interpAt (s : List ℚ) (h : ℚ) : ℚ :=
  let a := s.getD (⌊h⌋).toNat 0
  let b := s.getD (⌈h⌉).toNat 0
  a + (h - (⌊h⌋ : ℚ)) * (b - a)

/-- `np.percentile(xs, p)` with the default linear interpolation:
virtual rank `h = p/100 * (n-1)` on the sorted data.  `none` on an empty
array (where numpy has no element to index). -/
def percentile (xs : List ℚ) (p : ℚ) : Option ℚ :=
  match xs with
  | [] => none
  | _ :: _ => some (interpAt (sortSeries xs) (p / 100 * ((xs.length : ℚ) - 1)))

/-! ### np.random.choice(pop, size=n, replace=False) -/

/-- Draw `k` pairwise-distinct positions from the pool `avail`, consuming
the random stream `g` from index `step` on: at each step one position of
the remaining pool is selected (uniformly, via the raw random number
modulo the pool size) and removed from the pool. -/
def drawIndices (g : ℕ → ℕ) : List ℕ → ℕ → ℕ → List ℕ
  | _, 0, _ => []
  | avail, k + 1, step =>
    let j := g step % avail.length
    avail.getD j 0 :: drawIndices g (avail.eraseIdx j) k (step + 1)

/-- `np.random.choice(a, size=n, replace=False)` for a population array of
length `N`: raises when `n > N`, otherwise returns `n` distinct positions
of the array. -/
def npChoiceNoReplace (N n : ℕ) (g : ℕ → ℕ) (step : ℕ) : Except RunError (List ℕ) :=
  if N < n then .error .insufficientPopulation
  else .ok (drawIndices g (List.range N) n step)

/-- The sampled values: the population entries at the drawn positions. -/
def sampleValues (pop : List ℚ) (n : ℕ) (g : ℕ → ℕ) (step : ℕ) :
    Except RunError (List ℚ) :=
  (npChoiceNoReplace pop.length n g step).map (fun idxs => idxs.map (fun i => pop.getD i 0))

/-! ### Statistic functions -/

/-- The counting loop of bootstrap_radon_levels_KS_FINAL.py (lines 123-128):
`count_tot` is incremented for every element, `count_fr` for the elements
strictly above 200.  Returns `(count_tot, count_fr)`. -/
def countLoop (sub : List ℚ) : ℕ × ℕ :=
  sub.foldl (fun acc z => (acc.1 + 1, if 200 < z then acc.2 + 1 else acc.2)) (0, 0)

/-- `100.0 * count_fr / count_tot`: the percentage of sampled values
strictly above 200.  A Python `ZeroDivisionError` when the subsample is
empty. -/
def frAbove200 (sub : List ℚ) : Except RunError ℚ :=
  let c := countLoop sub
  if c.1 = 0 then .error .divisionByZero
  else .ok (100 * (c.2 : ℚ) / (c.1 : ℚ))

/-- Empirical CDF of a data list at a point: the fraction of entries `≤ t`. -/
def ecdf (xs : List ℚ) (t : ℚ) : ℚ :=
  ((xs.countP (fun z => decide (z ≤ t)) : ℕ) : ℚ) / ((xs.length : ℕ) : ℚ)

/-- Two-sample Kolmogorov-Smirnov D-statistic of `stats.kstest(sub, pop)`:
the largest absolute difference of the two empirical CDFs, attained at one
of the data points. -/
def ksStat (sub pop : List ℚ) : ℚ :=
  ((sub ++ pop).map (fun t => |ecdf sub t - ecdf pop t|)).foldl max 0

/-- The p-value of `stats.kstest(sub, pop)`: the survival function of the
asymptotic Kolmogorov distribution evaluated at
`sqrt(n1*n2/(n1+n2)) * d`, clipped to `[0, 1]`.  The scale factor is
positive, so the at-or-below-support-minimum test `en * d ≤ 0` of the
survival function (where it equals 1) is equivalent to `d ≤ 0`; the
transcendental positive branch, which scipy only ever approximates
numerically, is kept abstract as `tail`. -/
def ksPvalue (tail : ℕ → ℕ → ℚ → ℚ) (n1 n2 : ℕ) (d : ℚ) : ℚ :=
  if d ≤ 0 then 1 else min 1 (max 0 (tail n1 n2 d))

/-- Lift `np.percentile` into the error monad: an empty series has no
percentiles (`EmptySeriesError`). -/
def pctE (xs : List ℚ) (p : ℚ) : Except RunError ℚ :=
  match percentile xs p with
  | none => .error .emptySeries
  | some v => .ok v

/-! ### bootstrap_radon_levels_KS_FINAL.py : resampling loop and sweep -/

/-- One iteration of the inner loop of bootstrap_radon_levels_KS_FINAL.py
(lines 118-142): perform one sample, count the fraction above 200 on it,
run the KS test of that same subsample against the population, and return
the `(D-statistic, p-value, fraction)` triple of the iteration.  Iteration
`i` of a size-`n` entry consumes the random stream from position `i * n`. -/
def ksIteration (pop : List ℚ) (g : ℕ → ℕ) (tail : ℕ → ℕ → ℚ → ℚ) (n step : ℕ) :
    Except RunError (ℚ × ℚ × ℚ) := do
  let sub ← sampleValues pop n g step
  let fr ← frAbove200 sub
  let d := ksStat sub pop
  let p := ksPvalue tail sub.length pop.length d
  return (d, p, fr)

/-- The inner resampling loop of bootstrap_radon_levels_KS_FINAL.py for one
sample size: `iters` iterations, each appending its D-statistic, p-value
and exceedance fraction to the three series `cur_sample_ksd`,
`cur_sample_ksp`, `cur_fr_above_200`. -/
def ksLoop (pop : List ℚ) (n : ℕ) (g : ℕ → ℕ) (tail : ℕ → ℕ → ℚ → ℚ) :
    ℕ → Except RunError (List ℚ × List ℚ × List ℚ)
  | 0 => .ok ([], [], [])
  | i + 1 => do
    let acc ← ksLoop pop n g tail i
    let r ← ksIteration pop g tail n (i * n)
    return (acc.1 ++ [r.1], acc.2.1 ++ [r.2.1], acc.2.2 ++ [r.2.2])

/-- The record appended per sample size by bootstrap_radon_levels_KS_FINAL.py
(lines 148-164): 5th/95th/50th percentiles of the D-statistic series, of the
p-value series and of the exceedance-fraction series, plus the retained raw
series (`sample_arrs_ksd`, `sample_arrs_ksp`). -/
structure KSEntry where
  ksdLower : ℚ
  ksdUpper : ℚ
  ksdMedian : ℚ
  kspLower : ℚ
  kspUpper : ℚ
  kspMedian : ℚ
  dsRaw : List ℚ
  psRaw : List ℚ
  frMedian : ℚ
  frLower : ℚ
  frUpper : ℚ
deriving DecidableEq, Repr

/-- One sweep entry of bootstrap_radon_levels_KS_FINAL.py: run the inner
loop, then summarize each raw series into its percentile bounds, in the
source's append order. -/
def ksSweepEntry (pop : List ℚ) (n iters : ℕ) (g : ℕ → ℕ) (tail : ℕ → ℕ → ℚ → ℚ) :
    Except RunError KSEntry := do
  let s ← ksLoop pop n g tail iters
  let dl ← pctE s.1 5
  let du ← pctE s.1 95
  let dm ← pctE s.1 50
  let pl ← pctE s.2.1 5
  let pu ← pctE s.2.1 95
  let pm ← pctE s.2.1 50
  let fm ← pctE s.2.2 50
  let fl ← pctE s.2.2 5
  let fu ← pctE s.2.2 95
  return ⟨dl, du, dm, pl, pu, pm, s.1, s.2.1, fm, fl, fu⟩

/-- The sweep driver of bootstrap_radon_levels_KS_FINAL.py: process the
sample sizes in sequence order, accumulating one `KSEntry` per size; a
failing entry stops the loop, leaving the accumulated results as they were
and reporting the error (the Python exception propagating out of the
`for s in sample_sizes` loop, the global bound lists keeping the entries of
the already completed sizes).  Entry number `j` of the sweep uses the
random source `g j`. -/
def ksRunSweepAux (pop : List ℚ) (iters : ℕ) (tail : ℕ → ℕ → ℚ → ℚ) (g : ℕ → ℕ → ℕ) :
    ℕ → List (ℕ × KSEntry) → List ℕ → List (ℕ × KSEntry) × Option RunError
  | _, acc, [] => (acc, none)
  | j, acc, n :: rest =>
    match ksSweepEntry pop n iters (g j) tail with
    | .error e => (acc, some e)
    | .ok b => ksRunSweepAux pop iters tail g (j + 1) (acc ++ [(n, b)]) rest

/-- Run the whole sweep of bootstrap_radon_levels_KS_FINAL.py. -/
def ksRunSweep (pop : List ℚ) (sizes : List ℕ) (iters : ℕ) (g : ℕ → ℕ → ℕ)
    (tail : ℕ → ℕ → ℚ → ℚ) : List (ℕ × KSEntry) × Option RunError :=
  ksRunSweepAux pop iters tail g 0 [] sizes

/-! ### bootstrap_radon_levels.py : geometric-mean sweep -/

/-- The inner loop of bootstrap_radon_levels.py (lines 78-87): per
iteration, one sample and its 50th percentile (geometric mean), appended to
`cur_sample_gm_means`. -/
def gmLoop (pop : List ℚ) (n : ℕ) (g : ℕ → ℕ) : ℕ → Except RunError (List ℚ)
  | 0 => .ok []
  | i + 1 => do
    let acc ← gmLoop pop n g i
    let sub ← sampleValues pop n g (i * n)
    let m ← pctE sub 50
    return acc ++ [m]

/-- One sweep entry of bootstrap_radon_levels.py (lines 71-95): run the
inner loop, then append the 5th percentile to `sample_gm_lower_bounds` and
the 95th percentile to `sample_gm_upper_bounds` — these two scalars are all
that the script records for the sample size. -/
def gmSweepEntry (pop : List ℚ) (n iters : ℕ) (g : ℕ → ℕ) : Except RunError (ℚ × ℚ) := do
  let series ← gmLoop pop n g iters
  let lo ← pctE series 5
  let hi ← pctE series 95
  return (lo, hi)

/-! ### bootstrap_radon_levels_KS.py : loop with critical-value comparison -/

/-- The inner loop of bootstrap_radon_levels_KS.py (lines 103-123): per
iteration, one sample, the KS test against the population, the comparison
of the p-value with `crit_value` feeding `count_above_crit` (used only for
console output), and the appends to the two series. -/
def ksOrigLoop (pop : List ℚ) (n : ℕ) (g : ℕ → ℕ) (tail : ℕ → ℕ → ℚ → ℚ) (crit : ℚ) :
    ℕ → Except RunError (List ℚ × List ℚ × ℚ)
  | 0 => .ok ([], [], 0)
  | i + 1 => do
    let acc ← ksOrigLoop pop n g tail crit i
    let sub ← sampleValues pop n g (i * n)
    let d := ksStat sub pop
    let p := ksPvalue tail sub.length pop.length d
    let cnt := if crit < p then acc.2.2 + 1 else acc.2.2
    return (acc.1 ++ [d], acc.2.1 ++ [p], cnt)

/-- The record appended per sample size by bootstrap_radon_levels_KS.py
(lines 129-141). -/
structure KSOrigEntry where
  ksdLower : ℚ
  ksdUpper : ℚ
  ksdMedian : ℚ
  kspLower : ℚ
  kspUpper : ℚ
  kspMedian : ℚ
  dsRaw : List ℚ
  psRaw : List ℚ
deriving DecidableEq, Repr

/-- One sweep entry of bootstrap_radon_levels_KS.py, with the critical
value generalized to a parameter `crit` (the script computes it as
`1.36*pow((s+1e6)/(s*1e6),0.5)` and uses it only in the loop's
`count_above_crit` comparison). -/
def ksOrigSweepEntry (pop : List ℚ) (n iters : ℕ) (g : ℕ → ℕ) (tail : ℕ → ℕ → ℚ → ℚ)
    (crit : ℚ) : Except RunError KSOrigEntry := do
  let s ← ksOrigLoop pop n g tail crit iters
  let dl ← pctE s.1 5
  let du ← pctE s.1 95
  let dm ← pctE s.1 50
  let pl ← pctE s.2.1 5
  let pu ← pctE s.2.1 95
  let pm ← pctE s.2.1 50
  return ⟨dl, du, dm, pl, pu, pm, s.1, s.2.1⟩

/-- The square of the critical value `1.36*pow((s+1e6)/(s*1e6),0.5)` of the
KS scripts (the value itself is irrational; its square is rational and
determines it, both sides being nonnegative). -/
def critValueSq (s : ℕ) : ℚ :=
  (136 / 100) ^ 2 * (((s : ℚ) + 1000000) / ((s : ℚ) * 1000000))

/-- Modelled from the spec: the square of the reference critical value
`critical(n, alpha) = K(alpha) * sqrt((n + N)/(n*N))`, for comparison with
the source's formula. -/
def critValueSqSpec (n N : ℕ) (Kalpha : ℚ) : ℚ :=
  Kalpha ^ 2 * (((n : ℚ) + (N : ℚ)) / ((n : ℚ) * (N : ℚ)))

/-- Modelled from the spec: the 50th percentile of the subsample "using
linear interpolation between closest ranks (standard percentile
definition: rank = p/100*(n-1), interpolate between floor and ceil)". -/
def medianSpecRank (xs : List ℚ) : ℚ :=
  let srt := sortSeries xs
  let r : ℚ := 50 / 100 * ((xs.length : ℚ) - 1)
  srt.getD (⌊r⌋).toNat 0 + (r - (⌊r⌋ : ℚ)) * (srt.getD (⌈r⌉).toNat 0 - srt.getD (⌊r⌋).toNat 0)

/-! ### Helper lemmas -/

lemma ceil_eval (q : ℚ) : ⌈q⌉ = -⌊-q⌋ := by
  rw [Int.floor_neg, neg_neg]

lemma sortSeries_sorted (xs : List ℚ) : (sortSeries xs).Sorted (· ≤ ·) :=
  List.sorted_insertionSort _ xs

lemma sortSeries_perm (xs : List ℚ) : (sortSeries xs).Perm xs :=
  List.perm_insertionSort _ xs

lemma sortSeries_length (xs : List ℚ) : (sortSeries xs).length = xs.length :=
  (sortSeries_perm xs).length_eq

/-- Two permuted data lists sort to the same list. -/
lemma sortSeries_congr {xs ys : List ℚ} (hp : xs.Perm ys) :
    sortSeries xs = sortSeries ys :=
  List.eq_of_perm_of_sorted
    (((sortSeries_perm xs).trans hp).trans (sortSeries_perm ys).symm)
    (sortSeries_sorted xs) (sortSeries_sorted ys)

/-- `np.percentile` only depends on the multiset of the data. -/
lemma percentile_perm {xs ys : List ℚ} (hp : xs.Perm ys) (p : ℚ) :
    percentile xs p = percentile ys p := by
  cases xs with
  | nil =>
    have h0 : ys.length = 0 := by simpa using hp.length_eq.symm
    rw [List.length_eq_zero.mp h0]
  | cons a t =>
    cases ys with
    | nil => simpa using hp.length_eq
    | cons b u =>
      simp only [percentile]
      rw [sortSeries_congr hp, hp.length_eq]

lemma countLoop_aux (sub : List ℚ) (t f : ℕ) :
    sub.foldl (fun acc z => (acc.1 + 1, if 200 < z then acc.2 + 1 else acc.2)) (t, f) =
    (t + sub.length, f + sub.countP (fun z => decide (200 < z))) := by
  induction sub generalizing t f with
  | nil => simp
  | cons a l ih =>
    simp only [List.foldl_cons, List.countP_cons, ih]
    by_cases hz : (200 : ℚ) < a <;> simp [hz] <;> omega

/-- The counting loop returns the subsample length and the number of
entries strictly above 200. -/
lemma countLoop_eq (sub : List ℚ) :
    countLoop sub = (sub.length, sub.countP (fun z => decide (200 < z))) := by
  simpa using countLoop_aux sub 0 0

/-- Closed form of the exceedance statistic on a non-empty subsample. -/
lemma frAbove200_eq (sub : List ℚ) (h : sub ≠ []) :
    frAbove200 sub =
      .ok (100 * ((sub.countP (fun z => decide (200 < z)) : ℕ) : ℚ) / (sub.length : ℚ)) := by
  have hne : sub.length ≠ 0 := fun hz => h (List.length_eq_zero.mp hz)
  simp [frAbove200, countLoop_eq, hne]

/-- Drawing `k` positions from a duplicate-free pool of at least `k`
entries yields `k` pairwise-distinct members of the pool. -/
lemma drawIndices_spec (g : ℕ → ℕ) :
    ∀ (k : ℕ) (avail : List ℕ) (step : ℕ), k ≤ avail.length → avail.Nodup →
      (drawIndices g avail k step).length = k ∧
      (drawIndices g avail k step).Nodup ∧
      ∀ x ∈ drawIndices g avail k step, x ∈ avail := by
  intro k
  induction k with
  | zero => simp [drawIndices]
  | succ k ih =>
    intro avail step hk hnd
    have hpos : 0 < avail.length := lt_of_lt_of_le (Nat.succ_pos k) hk
    have hjlt : g step % avail.length < avail.length := Nat.mod_lt _ hpos
    have herase : (avail.eraseIdx (g step % avail.length)).length = avail.length - 1 := by
      rw [List.length_eraseIdx]; simp [hjlt]
    have hk' : k ≤ (avail.eraseIdx (g step % avail.length)).length := by omega
    obtain ⟨hlen, hndup, hsub⟩ :=
      ih (avail.eraseIdx (g step % avail.length)) (step + 1) hk' (hnd.eraseIdx _)
    have hgetD : avail.getD (g step % avail.length) 0 = avail[g step % avail.length] :=
      List.getD_eq_getElem avail 0 hjlt
    have hhead_not : avail.getD (g step % avail.length) 0 ∉
        avail.eraseIdx (g step % avail.length) := by
      rw [hgetD]
      intro hmem
      rw [List.mem_eraseIdx_iff_getElem] at hmem
      obtain ⟨i, hi, hij, hieq⟩ := hmem
      exact hij ((List.Nodup.getElem_inj_iff hnd).mp hieq)
    refine ⟨?_, ?_, ?_⟩
    · simp [drawIndices, hlen]
    · simp only [drawIndices, List.nodup_cons]
      exact ⟨fun hmem => hhead_not (hsub _ hmem), hndup⟩
    · intro x hx
      simp only [drawIndices, List.mem_cons] at hx
      rcases hx with hx | hx
      · exact hx ▸ hgetD ▸ List.getElem_mem hjlt
      · exact List.eraseIdx_subset _ _ (hsub x hx)

/-- Drawing as many positions as the pool holds exhausts the pool. -/
lemma drawIndices_perm (g : ℕ → ℕ) (avail : List ℕ) (step : ℕ) (hnd : avail.Nodup) :
    (drawIndices g avail avail.length step).Perm avail := by
  obtain ⟨hlen, hndup, hsub⟩ := drawIndices_spec g avail.length avail step le_rfl hnd
  exact (List.subperm_of_subset hndup hsub).perm_of_length_le (le_of_eq hlen.symm)

/-- Reading a list back at all its positions reproduces the list. -/
lemma map_getD_range (l : List ℚ) :
    (List.range l.length).map (fun i => l.getD i 0) = l := by
  apply List.ext_getElem
  · simp
  · intro n h1 h2
    rw [List.getElem_map, List.getElem_range]
    exact List.getD_eq_getElem l 0 h2

/-- Sampling the whole population without replacement returns a
permutation of the population. -/
lemma sampleValues_full (pop : List ℚ) (g : ℕ → ℕ) (step : ℕ) :
    ∃ sv, sampleValues pop pop.length g step = .ok sv ∧ sv.Perm pop := by
  refine ⟨(drawIndices g (List.range pop.length) pop.length step).map (fun i => pop.getD i 0),
    ?_, ?_⟩
  · simp [sampleValues, npChoiceNoReplace, Except.map]
  · have hperm' : (drawIndices g (List.range pop.length) pop.length step).Perm
        (List.range pop.length) := by
      simpa using drawIndices_perm g (List.range pop.length) step (List.nodup_range pop.length)
    have := hperm'.map (fun i => pop.getD i 0)
    rwa [map_getD_range] at this

/-- The empirical CDF depends only on the multiset of the data. -/
lemma ecdf_congr {xs ys : List ℚ} (hp : xs.Perm ys) (t : ℚ) : ecdf xs t = ecdf ys t := by
  unfold ecdf
  rw [hp.countP_eq, hp.length_eq]

lemma foldl_max_zero (l : List ℚ) (h : ∀ x ∈ l, x = 0) : l.foldl max 0 = 0 := by
  induction l with
  | nil => rfl
  | cons a t ih =>
    have ha : a = 0 := h a (by simp)
    rw [List.foldl_cons, ha, max_self]
    exact ih (fun x hx => h x (by simp [hx]))

/-- Comparing a multiset against itself: the KS distance is exactly 0. -/
lemma ksStat_self {sub pop : List ℚ} (hp : sub.Perm pop) : ksStat sub pop = 0 := by
  unfold ksStat
  apply foldl_max_zero
  intro x hx
  rw [List.mem_map] at hx
  obtain ⟨t, _, ht⟩ := hx
  rw [← ht, ecdf_congr hp]
  simp

/-! ### Claims -/

/-- C2: for every subsample of size n ≥ 1, the median/geometric-mean
statistic (`np.percentile(sub, 50)`) equals the 50th percentile computed by
linear interpolation between closest ranks on the sorted subsample, it
never fails for n ≥ 1, and for n = 1 it returns the single element. -/
theorem median_matches_rank_interpolation (xs : List ℚ) (x : ℚ) (h : xs ≠ []) :
    percentile xs 50 = some (medianSpecRank xs) ∧ percentile [x] 50 = some x := by
  constructor
  · cases xs with
    | nil => exact absurd rfl h
    | cons a t => rfl
  · show some (interpAt (sortSeries [x]) (50 / 100 * ((1 : ℚ) - 1))) = some x
    norm_num [interpAt, sortSeries, List.insertionSort]

/-- Witness for C2 at `xs = [3, 1]`, `x = 7`: the median of `[3, 1]` is 2
(the midpoint of the sorted pair), matching the rank interpolation, and a
singleton's median is its element. -/
theorem median_matches_rank_interpolation_witness :
    percentile [3, 1] 50 = some (medianSpecRank [3, 1]) ∧ percentile [(7 : ℚ)] 50 = some 7 :=
  median_matches_rank_interpolation [3, 1] 7 (by simp)

/-- C3: permuting a non-empty series leaves the (5th, 50th, 95th)
percentile summary unchanged. -/
theorem percentile_summary_perm_invariant (xs ys : List ℚ) (h : xs ≠ [])
    (hp : xs.Perm ys) :
    (percentile xs 5, percentile xs 50, percentile xs 95) =
    (percentile ys 5, percentile ys 50, percentile ys 95) := by
  rw [percentile_perm hp, percentile_perm hp, percentile_perm hp]

/-- Witness for C3: `[1, 2, 30]` against its rotation `[30, 1, 2]`. -/
theorem percentile_summary_perm_invariant_witness :
    (percentile [1, 2, 30] 5, percentile [1, 2, 30] 50, percentile [1, 2, 30] 95) =
    (percentile [30, 1, 2] 5, percentile [30, 1, 2] 50, percentile [30, 1, 2] 95) :=
  percentile_summary_perm_invariant [1, 2, 30] [30, 1, 2] (by simp)
    (by decide)

/-- C6: for every non-empty subsample, the threshold-exceedance statistic
equals 100 times the count of values strictly above 200, divided by the
subsample length. -/
theorem fr_above200_formula (sub : List ℚ) (h : sub ≠ []) :
    frAbove200 sub =
      .ok (100 * ((sub.countP (fun z => decide (200 < z)) : ℕ) : ℚ) / (sub.length : ℚ)) :=
  frAbove200_eq sub h

/-- Witness for C6 at `[200, 201]`: the value 200 itself is not counted,
giving 100 * 1 / 2 = 50. -/
theorem fr_above200_formula_witness :
    frAbove200 [200, 201] =
      .ok (100 * (([(200 : ℚ), 201].countP (fun z => decide (200 < z)) : ℕ) : ℚ) /
        (([(200 : ℚ), 201] : List ℚ).length : ℚ)) :=
  fr_above200_formula [200, 201] (by simp)

/-- Inversion of a successful bind in the error monad. -/
lemma exceptBind_ok {α β : Type} {x : Except RunError α} {f : α → Except RunError β} {b : β}
    (h : (x >>= f) = .ok b) : ∃ a, x = .ok a ∧ f a = .ok b := by
  cases x with
  | error e => simp [bind, Except.bind] at h
  | ok a => exact ⟨a, rfl, by simpa [bind, Except.bind] using h⟩

lemma pctE_ok_iff {xs : List ℚ} {p v : ℚ} : pctE xs p = .ok v ↔ percentile xs p = some v := by
  unfold pctE
  cases h : percentile xs p <;> simp

/-- A successful KS_FINAL sweep entry consists exactly of the three
percentiles 5/50/95 of each of the three raw series of its inner loop. -/
lemma ksSweepEntry_ok {pop : List ℚ} {n iters : ℕ} {g : ℕ → ℕ}
    {tail : ℕ → ℕ → ℚ → ℚ} {b : KSEntry}
    (hks : ksSweepEntry pop n iters g tail = .ok b) :
    ∃ s, ksLoop pop n g tail iters = .ok s ∧
      percentile s.1 5 = some b.ksdLower ∧ percentile s.1 95 = some b.ksdUpper ∧
      percentile s.1 50 = some b.ksdMedian ∧
      percentile s.2.1 5 = some b.kspLower ∧ percentile s.2.1 95 = some b.kspUpper ∧
      percentile s.2.1 50 = some b.kspMedian ∧
      percentile s.2.2 50 = some b.frMedian ∧ percentile s.2.2 5 = some b.frLower ∧
      percentile s.2.2 95 = some b.frUpper ∧
      b.dsRaw = s.1 ∧ b.psRaw = s.2.1 := by
  unfold ksSweepEntry at hks
  obtain ⟨s, hs, hks⟩ := exceptBind_ok hks
  obtain ⟨dl, hdl, hks⟩ := exceptBind_ok hks
  obtain ⟨du, hdu, hks⟩ := exceptBind_ok hks
  obtain ⟨dm, hdm, hks⟩ := exceptBind_ok hks
  obtain ⟨pl, hpl, hks⟩ := exceptBind_ok hks
  obtain ⟨pu, hpu, hks⟩ := exceptBind_ok hks
  obtain ⟨pm, hpm, hks⟩ := exceptBind_ok hks
  obtain ⟨fm, hfm, hks⟩ := exceptBind_ok hks
  obtain ⟨fl, hfl, hks⟩ := exceptBind_ok hks
  obtain ⟨fu, hfu, hks⟩ := exceptBind_ok hks
  simp only [pure, Except.pure, Except.ok.injEq] at hks
  subst hks
  exact ⟨s, hs, pctE_ok_iff.mp hdl, pctE_ok_iff.mp hdu, pctE_ok_iff.mp hdm,
    pctE_ok_iff.mp hpl, pctE_ok_iff.mp hpu, pctE_ok_iff.mp hpm,
    pctE_ok_iff.mp hfm, pctE_ok_iff.mp hfl, pctE_ok_iff.mp hfu, rfl, rfl⟩

/-- A successful geometric-mean sweep entry consists exactly of the 5th and
95th percentiles of the raw series of its inner loop — nothing else. -/
lemma gmSweepEntry_ok {pop : List ℚ} {n iters : ℕ} {g : ℕ → ℕ} {lo hi : ℚ}
    (hgm : gmSweepEntry pop n iters g = .ok (lo, hi)) :
    ∃ series, gmLoop pop n g iters = .ok series ∧
      percentile series 5 = some lo ∧ percentile series 95 = some hi := by
  unfold gmSweepEntry at hgm
  obtain ⟨series, hser, hgm⟩ := exceptBind_ok hgm
  obtain ⟨lo', hlo, hgm⟩ := exceptBind_ok hgm
  obtain ⟨hi', hhi, hgm⟩ := exceptBind_ok hgm
  simp only [pure, Except.pure, Except.ok.injEq, Prod.mk.injEq] at hgm
  obtain ⟨h1, h2⟩ := hgm
  subst h1; subst h2
  exact ⟨series, hser, pctE_ok_iff.mp hlo, pctE_ok_iff.mp hhi⟩

/-- C1 counterexample: a concrete run of the geometric-mean sweep of
bootstrap_radon_levels.py (population `[0, 10]`, sample size 1, two
iterations) whose raw series is `[0, 10]`.  The entry records only the
pair (1/2, 19/2) — the 5th and 95th percentiles — and the series' median 5
equals neither recorded scalar: the summarization of this sweep entry does
not produce the full (lower, median, upper) triple. -/
theorem gm_entry_median_missing :
    gmSweepEntry [0, 10] 1 2 (fun k => k) = .ok (1/2, 19/2) ∧
    gmLoop [0, 10] 1 (fun k => k) 2 = .ok [0, 10] ∧
    percentile [0, 10] 50 = some 5 ∧ (5 : ℚ) ≠ 1/2 ∧ (5 : ℚ) ≠ 19/2 := by
  refine ⟨?_, ?_, ?_, by norm_num, by norm_num⟩ <;>
    norm_num [gmSweepEntry, gmLoop, pctE, percentile, sortSeries, interpAt,
      List.insertionSort, List.orderedInsert, sampleValues, npChoiceNoReplace,
      drawIndices, List.range_succ, Except.map, bind, Except.bind, pure, Except.pure,
      Int.fract, ceil_eval]

/-- C1 amended: the KS_FINAL script's summarization produces the full
(5th, 50th, 95th) triple for each of its three statistics, while the
geometric-mean script's summarization produces only the (5th, 95th) pair
for its single statistic, with no median. -/
theorem summarize_triples_and_gm_pair (pop : List ℚ) (n iters : ℕ)
    (gks ggm : ℕ → ℕ) (tail : ℕ → ℕ → ℚ → ℚ) (b : KSEntry) (lo hi : ℚ)
    (hks : ksSweepEntry pop n iters gks tail = .ok b)
    (hgm : gmSweepEntry pop n iters ggm = .ok (lo, hi)) :
    (∃ s, ksLoop pop n gks tail iters = .ok s ∧
      percentile s.1 5 = some b.ksdLower ∧ percentile s.1 50 = some b.ksdMedian ∧
      percentile s.1 95 = some b.ksdUpper ∧
      percentile s.2.1 5 = some b.kspLower ∧ percentile s.2.1 50 = some b.kspMedian ∧
      percentile s.2.1 95 = some b.kspUpper ∧
      percentile s.2.2 5 = some b.frLower ∧ percentile s.2.2 50 = some b.frMedian ∧
      percentile s.2.2 95 = some b.frUpper) ∧
    (∃ series, gmLoop pop n ggm iters = .ok series ∧
      percentile series 5 = some lo ∧ percentile series 95 = some hi) := by
  obtain ⟨s, hs, h1, h2, h3, h4, h5, h6, h7, h8, h9, _, _⟩ := ksSweepEntry_ok hks
  exact ⟨⟨s, hs, h1, h3, h2, h4, h6, h5, h8, h7, h9⟩, gmSweepEntry_ok hgm⟩

/-- Witness for C1's amended statement on the population `[1, 2]`. -/
theorem summarize_triples_and_gm_pair_witness :
    (∃ s, ksLoop [1, 2] 2 (fun k => k) (fun _ _ _ => 0) 1 = .ok s ∧
      percentile s.1 5 = some (0 : ℚ) ∧ percentile s.1 50 = some 0 ∧
      percentile s.1 95 = some 0 ∧
      percentile s.2.1 5 = some 1 ∧ percentile s.2.1 50 = some 1 ∧
      percentile s.2.1 95 = some 1 ∧
      percentile s.2.2 5 = some 0 ∧ percentile s.2.2 50 = some 0 ∧
      percentile s.2.2 95 = some 0) ∧
    (∃ series, gmLoop [1, 2] 2 (fun k => k) 1 = .ok series ∧
      percentile series 5 = some (3/2 : ℚ) ∧ percentile series 95 = some (3/2)) :=
  summarize_triples_and_gm_pair [1, 2] 2 1 (fun k => k) (fun k => k) (fun _ _ _ => 0)
    ⟨0, 0, 0, 1, 1, 1, [0], [1], 0, 0, 0⟩ (3/2) (3/2)
    (by norm_num [ksSweepEntry, ksLoop, ksIteration, sampleValues, npChoiceNoReplace,
      drawIndices, List.range_succ, Except.map, bind, Except.bind, pure, Except.pure,
      frAbove200, countLoop, ksStat, ecdf, ksPvalue, pctE, percentile, sortSeries,
      interpAt, List.insertionSort, List.orderedInsert, Int.fract, ceil_eval,
      max_def, abs])
    (by norm_num [gmSweepEntry, gmLoop, pctE, percentile, sortSeries, interpAt,
      List.insertionSort, List.orderedInsert, sampleValues, npChoiceNoReplace,
      drawIndices, List.range_succ, Except.map, bind, Except.bind, pure, Except.pure,
      Int.fract, ceil_eval])

/-- C4: sampling without replacement from a population of size `N` returns
exactly `n` pairwise-distinct positions of the population when `n ≤ N`,
and raises `InsufficientPopulationError` exactly when `n > N` — no
clamping, the requested size is used as given. -/
theorem sample_without_replacement_spec (N n : ℕ) (g : ℕ → ℕ) (step : ℕ) :
    (n ≤ N → ∃ idxs, npChoiceNoReplace N n g step = .ok idxs ∧ idxs.length = n ∧
      idxs.Nodup ∧ ∀ i ∈ idxs, i < N) ∧
    (N < n → npChoiceNoReplace N n g step = .error .insufficientPopulation) := by
  constructor
  · intro hle
    obtain ⟨hlen, hnd, hsub⟩ := drawIndices_spec g n (List.range N) step
      (by simpa using hle) (List.nodup_range N)
    exact ⟨drawIndices g (List.range N) n step,
      by simp [npChoiceNoReplace, Nat.not_lt.mpr hle], hlen, hnd,
      fun i hi => List.mem_range.mp (hsub i hi)⟩
  · intro hgt
    simp [npChoiceNoReplace, hgt]

/-- Witness for C4: from a population of 3, a draw of 2 succeeds with two
distinct valid positions, a draw of 4 raises. -/
theorem sample_without_replacement_spec_witness :
    (∃ idxs, npChoiceNoReplace 3 2 (fun k => k) 0 = .ok idxs ∧ idxs.length = 2 ∧
      idxs.Nodup ∧ ∀ i ∈ idxs, i < 3) ∧
    npChoiceNoReplace 3 4 (fun k => k) 0 = .error .insufficientPopulation :=
  ⟨(sample_without_replacement_spec 3 2 (fun k => k) 0).1 (by norm_num),
    (sample_without_replacement_spec 3 4 (fun k => k) 0).2 (by norm_num)⟩

/-- C7: with sample size equal to the population size (the subsample is
then a permutation of the population) and a single iteration, the KS test
of the subsample against the population produces D-statistic exactly 0 and
p-value exactly 1: the stored series of the entry are `[0]` and `[1]`. -/
theorem ks_self_comparison_zero_one (pop : List ℚ) (g : ℕ → ℕ)
    (tail : ℕ → ℕ → ℚ → ℚ) (h : pop ≠ []) :
    ∃ fr, ksLoop pop pop.length g tail 1 = .ok ([0], [1], [fr]) := by
  obtain ⟨sv, hsv, hperm⟩ := sampleValues_full pop g 0
  have hsvne : sv ≠ [] := by
    intro hnil
    exact h (List.length_eq_zero.mp (hnil ▸ hperm.length_eq).symm)
  refine ⟨100 * ((sv.countP (fun z => decide (200 < z)) : ℕ) : ℚ) / (sv.length : ℚ), ?_⟩
  have hd : ksStat sv pop = 0 := ksStat_self hperm
  simp [ksLoop, ksIteration, bind, Except.bind, pure, Except.pure, hsv,
    frAbove200_eq sv hsvne, hd, ksPvalue]

/-- Witness for C7 on the population `[7, 3]`. -/
theorem ks_self_comparison_zero_one_witness :
    ∃ fr, ksLoop [7, 3] ([(7 : ℚ), 3] : List ℚ).length (fun k => k) (fun _ _ _ => 0) 1 =
      .ok ([0], [1], [fr]) :=
  ks_self_comparison_zero_one [7, 3] (fun k => k) (fun _ _ _ => 0) (by simp)

/-- Inversion of one iteration: a successful iteration is exactly one
successful draw whose statistics populate the triple. -/
lemma ksIteration_ok_iff {pop : List ℚ} {g : ℕ → ℕ} {tail : ℕ → ℕ → ℚ → ℚ}
    {n step : ℕ} {r : ℚ × ℚ × ℚ} :
    ksIteration pop g tail n step = .ok r ↔
    ∃ sub fr, sampleValues pop n g step = .ok sub ∧ frAbove200 sub = .ok fr ∧
      r = (ksStat sub pop, ksPvalue tail sub.length pop.length (ksStat sub pop), fr) := by
  unfold ksIteration
  cases hs : sampleValues pop n g step with
  | error e => simp [bind, Except.bind]
  | ok sub =>
    cases hf : frAbove200 sub with
    | error e => simp [bind, Except.bind, hf]
    | ok fr => simp [bind, Except.bind, hf, pure, Except.pure, eq_comm]

/-- C5: within each resampling iteration of the KS sweep, exactly one
subsample is drawn (iteration `i` of a size-`n` entry reads the random
stream at offset `i * n`), and the i-th entries of all three raw series
— D-statistic, p-value and exceedance fraction — are computed from that
identical subsample. -/
theorem statistics_share_subsample (pop : List ℚ) (n : ℕ) (g : ℕ → ℕ)
    (tail : ℕ → ℕ → ℚ → ℚ) (iters : ℕ) (ds ps frs : List ℚ)
    (h : ksLoop pop n g tail iters = .ok (ds, ps, frs)) :
    ds.length = iters ∧ ps.length = iters ∧ frs.length = iters ∧
    ∀ i, i < iters → ∃ sub, sampleValues pop n g (i * n) = .ok sub ∧
      ds.getD i 0 = ksStat sub pop ∧
      ps.getD i 0 = ksPvalue tail sub.length pop.length (ksStat sub pop) ∧
      frAbove200 sub = .ok (frs.getD i 0) := by
  induction iters generalizing ds ps frs with
  | zero =>
    simp only [ksLoop, Except.ok.injEq, Prod.mk.injEq] at h
    obtain ⟨h1, h2, h3⟩ := h
    subst h1; subst h2; subst h3
    simp
  | succ i ih =>
    simp only [ksLoop] at h
    cases hacc : ksLoop pop n g tail i with
    | error e => rw [hacc] at h; simp [bind, Except.bind] at h
    | ok acc =>
      rw [hacc] at h
      simp only [bind, Except.bind] at h
      cases hit : ksIteration pop g tail n (i * n) with
      | error e => rw [hit] at h; simp at h
      | ok r =>
        rw [hit] at h
        simp only [pure, Except.pure, Except.ok.injEq, Prod.mk.injEq] at h
        obtain ⟨h1, h2, h3⟩ := h
        obtain ⟨l1, l2, l3, hI⟩ := ih acc.1 acc.2.1 acc.2.2 hacc
        obtain ⟨sub, fr, hsub, hfr, hr⟩ := ksIteration_ok_iff.mp hit
        refine ⟨by simp [← h1, l1], by simp [← h2, l2], by simp [← h3, l3], ?_⟩
        intro m hm
        rcases Nat.lt_succ_iff_lt_or_eq.mp hm with hlt | heq
        · obtain ⟨sub', hsub', hd', hp', hf'⟩ := hI m hlt
          refine ⟨sub', hsub', ?_, ?_, ?_⟩
          · rw [← h1, List.getD_append _ _ _ _ (l1 ▸ hlt)]; exact hd'
          · rw [← h2, List.getD_append _ _ _ _ (l2 ▸ hlt)]; exact hp'
          · rw [← h3, List.getD_append _ _ _ _ (l3 ▸ hlt)]; exact hf'
        · subst heq
          refine ⟨sub, hsub, ?_, ?_, ?_⟩
          · rw [← h1, List.getD_append_right _ _ _ _ (le_of_eq l1), l1]
            simp [hr]
          · rw [← h2, List.getD_append_right _ _ _ _ (le_of_eq l2), l2]
            simp [hr]
          · rw [← h3, List.getD_append_right _ _ _ _ (le_of_eq l3), l3]
            simpa [hr] using hfr

/-- The two raw series of the bootstrap_radon_levels_KS.py inner loop do
not depend on the critical value: `crit_value` only feeds the
`count_above_crit` counter. -/
lemma ksOrigLoop_proj (pop : List ℚ) (n : ℕ) (g : ℕ → ℕ) (tail : ℕ → ℕ → ℚ → ℚ)
    (c c' : ℚ) : ∀ iters,
    (ksOrigLoop pop n g tail c iters).map (fun s => (s.1, s.2.1)) =
    (ksOrigLoop pop n g tail c' iters).map (fun s => (s.1, s.2.1))
  | 0 => rfl
  | i + 1 => by
    have ih := ksOrigLoop_proj pop n g tail c c' i
    simp only [ksOrigLoop]
    cases h1 : ksOrigLoop pop n g tail c i with
    | error e =>
      cases h2 : ksOrigLoop pop n g tail c' i with
      | error e2 =>
        rw [h1, h2] at ih
        simp only [Except.map, Except.error.injEq] at ih
        subst ih
        simp [bind, Except.bind, Except.map]
      | ok s2 => rw [h1, h2] at ih; simp [Except.map] at ih
    | ok s1 =>
      cases h2 : ksOrigLoop pop n g tail c' i with
      | error e2 => rw [h1, h2] at ih; simp [Except.map] at ih
      | ok s2 =>
        rw [h1, h2] at ih
        simp only [Except.map, Except.ok.injEq, Prod.mk.injEq] at ih
        obtain ⟨hd, hp⟩ := ih
        simp only [bind, Except.bind]
        cases hs : sampleValues pop n g (i * n) with
        | error e => simp [Except.map]
        | ok sub => simp [pure, Except.pure, Except.map, hd, hp]

/-- A whole bootstrap_radon_levels_KS.py sweep entry is unchanged under any
change of the critical value. -/
lemma ksOrigSweepEntry_crit_indep (pop : List ℚ) (n iters : ℕ) (g : ℕ → ℕ)
    (tail : ℕ → ℕ → ℚ → ℚ) (c c' : ℚ) :
    ksOrigSweepEntry pop n iters g tail c = ksOrigSweepEntry pop n iters g tail c' := by
  have hproj := ksOrigLoop_proj pop n g tail c c' iters
  unfold ksOrigSweepEntry
  cases h1 : ksOrigLoop pop n g tail c iters with
  | error e =>
    cases h2 : ksOrigLoop pop n g tail c' iters with
    | error e2 =>
      rw [h1, h2] at hproj
      simp only [Except.map, Except.error.injEq] at hproj
      subst hproj
      rfl
    | ok s2 => rw [h1, h2] at hproj; simp [Except.map] at hproj
  | ok s1 =>
    cases h2 : ksOrigLoop pop n g tail c' iters with
    | error e2 => rw [h1, h2] at hproj; simp [Except.map] at hproj
    | ok s2 =>
      rw [h1, h2] at hproj
      simp only [Except.map, Except.ok.injEq, Prod.mk.injEq] at hproj
      obtain ⟨hd, hp⟩ := hproj
      simp only [bind, Except.bind, hd, hp]

/-- C8: the critical value of the KS scripts is
`1.36 * sqrt((s + 10^6)/(s * 10^6))` — its square agrees with the square
of the spec's `K(alpha) * sqrt((n + N)/(n*N))` at `K(0.05) = 1.36` and
`N = 10^6`, both quantities being nonnegative — and it is only a plotting
overlay: the sweep entry (raw series and all confidence bounds) is the
same for any value of the critical value. -/
theorem crit_value_formula_and_overlay (s : ℕ) (pop : List ℚ) (n iters : ℕ)
    (g : ℕ → ℕ) (tail : ℕ → ℕ → ℚ → ℚ) (c c' : ℚ) :
    critValueSq s = critValueSqSpec s 1000000 (136 / 100) ∧
    ksOrigSweepEntry pop n iters g tail c = ksOrigSweepEntry pop n iters g tail c' :=
  ⟨by norm_num [critValueSq, critValueSqSpec],
    ksOrigSweepEntry_crit_indep pop n iters g tail c c'⟩

/-- Abort behaviour of the sweep driver: entries before the failing size
succeed and are kept, the failing size contributes nothing, everything
after it is not processed, and the error is surfaced. -/
lemma runSweepAux_abort (pop : List ℚ) (iters : ℕ) (tail : ℕ → ℕ → ℚ → ℚ)
    (g : ℕ → ℕ → ℕ) (s₀ : ℕ) (e : RunError) (post : List ℕ) :
    ∀ (pre : List ℕ) (j : ℕ) (acc : List (ℕ × KSEntry)),
      (∀ m (hm : m < pre.length),
        ∃ b, ksSweepEntry pop (pre.get ⟨m, hm⟩) iters (g (j + m)) tail = .ok b) →
      ksSweepEntry pop s₀ iters (g (j + pre.length)) tail = .error e →
      ksRunSweepAux pop iters tail g j acc (pre ++ s₀ :: post) =
        ((ksRunSweepAux pop iters tail g j acc pre).1, some e) := by
  intro pre
  induction pre with
  | nil =>
    intro j acc _ hfail
    simp only [List.length_nil, Nat.add_zero] at hfail
    simp [ksRunSweepAux, hfail]
  | cons a t ih =>
    intro j acc hpre hfail
    obtain ⟨b, hb⟩ := hpre 0 (by simp)
    simp only [Nat.add_zero, List.get] at hb
    simp only [List.cons_append, ksRunSweepAux, hb]
    apply ih (j + 1) (acc ++ [(a, b)])
    · intro m hm
      obtain ⟨b', hb'⟩ := hpre (m + 1) (by simpa using Nat.succ_lt_succ hm)
      refine ⟨b', ?_⟩
      rw [show j + 1 + m = j + (m + 1) from by omega]
      exact hb'
    · rw [show j + 1 + t.length = j + (a :: t).length from by simp; omega]
      exact hfail

/-- C9: if the sweep entry for some sample size fails while all earlier
entries succeed, the sweep aborts there: the error propagates, the results
table holds exactly the entries of the earlier sample sizes (processed in
sequence order), and neither the failed size nor any later size
contributes an entry. -/
theorem sweep_aborts_on_failure (pop : List ℚ) (iters : ℕ) (g : ℕ → ℕ → ℕ)
    (tail : ℕ → ℕ → ℚ → ℚ) (pre post : List ℕ) (s₀ : ℕ) (e : RunError)
    (hpre : ∀ m (hm : m < pre.length),
      ∃ b, ksSweepEntry pop (pre.get ⟨m, hm⟩) iters (g m) tail = .ok b)
    (hfail : ksSweepEntry pop s₀ iters (g pre.length) tail = .error e) :
    ksRunSweep pop (pre ++ s₀ :: post) iters g tail =
      ((ksRunSweep pop pre iters g tail).1, some e) := by
  unfold ksRunSweep
  exact runSweepAux_abort pop iters tail g s₀ e post pre 0 []
    (by simpa using hpre) (by simpa using hfail)

/-- Witness for C9: population `[1, 2, 3]`, sweep `[1, 5, 2]`.  The draw
of size 5 fails (insufficient population); the size-1 entry before it is
kept, the size-2 entry after it is never computed. -/
theorem sweep_aborts_on_failure_witness :
    ksRunSweep [1, 2, 3] ([1] ++ 5 :: [2]) 1 (fun _ k => k) (fun _ _ _ => 0) =
      ((ksRunSweep [1, 2, 3] [1] 1 (fun _ k => k) (fun _ _ _ => 0)).1,
        some .insufficientPopulation) :=
  sweep_aborts_on_failure [1, 2, 3] 1 (fun _ k => k) (fun _ _ _ => 0) [1] [2] 5
    .insufficientPopulation
    (by
      intro m hm
      have hm0 : m = 0 := by simpa using hm
      subst hm0
      refine ⟨⟨2/3, 2/3, 2/3, 0, 0, 0, [2/3], [0], 0, 0, 0⟩, ?_⟩
      norm_num [ksSweepEntry, ksLoop, ksIteration, sampleValues, npChoiceNoReplace,
        drawIndices, List.range_succ, Except.map, bind, Except.bind, pure, Except.pure,
        frAbove200, countLoop, ksStat, ecdf, ksPvalue, pctE, percentile, sortSeries,
        interpAt, List.insertionSort, List.orderedInsert, Int.fract, ceil_eval,
        max_def, abs])
    (by
      norm_num [ksSweepEntry, ksLoop, ksIteration, sampleValues, npChoiceNoReplace,
        bind, Except.bind, Except.map])

/-- Witness for C5: two iterations of sample size 1 on the population
`[0, 300]`. -/
theorem statistics_share_subsample_witness :
    ([(1 : ℚ)/2, 1/2].length = 2 ∧ [(1 : ℚ), 1].length = 2 ∧ [(0 : ℚ), 100].length = 2 ∧
    ∀ i, i < 2 → ∃ sub, sampleValues [0, 300] 1 (fun k => k) (i * 1) = .ok sub ∧
      [(1 : ℚ)/2, 1/2].getD i 0 = ksStat sub [0, 300] ∧
      [(1 : ℚ), 1].getD i 0 =
        ksPvalue (fun _ _ _ => 1) sub.length ([(0 : ℚ), 300] : List ℚ).length
          (ksStat sub [0, 300]) ∧
      frAbove200 sub = .ok ([(0 : ℚ), 100].getD i 0)) :=
  statistics_share_subsample [0, 300] 1 (fun k => k) (fun _ _ _ => 1) 2
    [1/2, 1/2] [1, 1] [0, 100]
    (by norm_num [ksLoop, ksIteration, sampleValues, npChoiceNoReplace, drawIndices,
      List.range_succ, Except.map, bind, Except.bind, pure, Except.pure, frAbove200,
      countLoop, ksStat, ecdf, ksPvalue, Int.fract, ceil_eval, max_def, abs])

/-- Access into a sorted list is monotone in the index. -/
lemma getD_sorted_mono {s : List ℚ} (hs : s.Sorted (· ≤ ·)) {i j : ℕ}
    (hij : i ≤ j) (hj : j < s.length) : s.getD i 0 ≤ s.getD j 0 := by
  have hi : i < s.length := Nat.lt_of_le_of_lt hij hj
  rw [List.getD_eq_getElem s 0 hi, List.getD_eq_getElem s 0 hj]
  rcases Nat.lt_or_ge i j with hlt | hge
  · have := hs.rel_get_of_lt (a := ⟨i, hi⟩) (b := ⟨j, hj⟩) (Fin.mk_lt_mk.mpr hlt)
    simpa [List.get_eq_getElem] using this
  · have heq : i = j := le_antisymm hij hge
    subst heq
    exact le_rfl

/-- The linear interpolation of `np.percentile` is monotone in the virtual
rank, on a sorted array. -/
lemma interpAt_mono (s : List ℚ) (hs : s.Sorted (· ≤ ·)) {h1 h2 : ℚ}
    (h0 : 0 ≤ h1) (h12 : h1 ≤ h2) (hub : h2 ≤ (s.length : ℚ) - 1) :
    interpAt s h1 ≤ interpAt s h2 := by
  have hlen : 1 ≤ s.length := by
    rcases Nat.eq_zero_or_pos s.length with hz | hp
    · rw [hz] at hub; norm_num at hub; linarith
    · exact hp
  have hf1 : (0 : ℤ) ≤ ⌊h1⌋ := Int.floor_nonneg.mpr h0
  have hf2 : (0 : ℤ) ≤ ⌊h2⌋ := Int.floor_nonneg.mpr (le_trans h0 h12)
  have hff : ⌊h1⌋ ≤ ⌊h2⌋ := Int.floor_le_floor h12
  have hcc : ⌈h1⌉ ≤ ⌈h2⌉ := Int.ceil_le_ceil h12
  have hfc1 : ⌊h1⌋ ≤ ⌈h1⌉ := Int.floor_le_ceil h1
  have hfc2 : ⌊h2⌋ ≤ ⌈h2⌉ := Int.floor_le_ceil h2
  have hc2 : ⌈h2⌉ ≤ (s.length : ℤ) - 1 := by
    rw [Int.ceil_le]
    push_cast
    exact hub
  have hidxc2 : (⌈h2⌉).toNat < s.length := by omega
  have hidxc1 : (⌈h1⌉).toNat < s.length := by omega
  have hidxf2 : (⌊h2⌋).toNat < s.length := by omega
  have hfr1a : 0 ≤ h1 - ((⌊h1⌋ : ℤ) : ℚ) := by linarith [Int.floor_le h1]
  have hfr1b : h1 - ((⌊h1⌋ : ℤ) : ℚ) ≤ 1 := by linarith [Int.lt_floor_add_one h1]
  have hfr2a : 0 ≤ h2 - ((⌊h2⌋ : ℤ) : ℚ) := by linarith [Int.floor_le h2]
  have hab1 : s.getD (⌊h1⌋).toNat 0 ≤ s.getD (⌈h1⌉).toNat 0 :=
    getD_sorted_mono hs (by omega) hidxc1
  have hab2 : s.getD (⌊h2⌋).toNat 0 ≤ s.getD (⌈h2⌉).toNat 0 :=
    getD_sorted_mono hs (by omega) hidxc2
  show s.getD (⌊h1⌋).toNat 0 +
      (h1 - ((⌊h1⌋ : ℤ) : ℚ)) * (s.getD (⌈h1⌉).toNat 0 - s.getD (⌊h1⌋).toNat 0) ≤
    s.getD (⌊h2⌋).toNat 0 +
      (h2 - ((⌊h2⌋ : ℤ) : ℚ)) * (s.getD (⌈h2⌉).toNat 0 - s.getD (⌊h2⌋).toNat 0)
  by_cases hfe : ⌊h1⌋ = ⌊h2⌋
  · by_cases hce : ⌈h1⌉ = ⌈h2⌉
    · rw [hfe, hce]
      have hmul := mul_le_mul_of_nonneg_right
        (show h1 - ((⌊h2⌋ : ℤ) : ℚ) ≤ h2 - ((⌊h2⌋ : ℤ) : ℚ) by linarith)
        (sub_nonneg.mpr hab2)
      linarith
    · have hint : h1 = ((⌊h1⌋ : ℤ) : ℚ) := by
        by_contra hne
        have h1lt : ((⌊h1⌋ : ℤ) : ℚ) < h1 :=
          lt_of_le_of_ne (Int.floor_le h1) (fun hic => hne hic.symm)
        have hc1e : ⌈h1⌉ = ⌊h1⌋ + 1 := by
          have hup := Int.ceil_le_floor_add_one h1
          have hlow : ⌊h1⌋ < ⌈h1⌉ := by
            by_contra hc
            push_neg at hc
            have hle2 : h1 ≤ ((⌊h1⌋ : ℤ) : ℚ) :=
              le_trans (Int.le_ceil h1) (by exact_mod_cast hc)
            linarith
          omega
        rcases eq_or_lt_of_le (Int.floor_le h2) with he | hlt2
        · have hfle : h2 ≤ h1 := by
            have : ((⌊h1⌋ : ℤ) : ℚ) = ((⌊h2⌋ : ℤ) : ℚ) := by exact_mod_cast hfe
            linarith [Int.floor_le h1]
          have h12eq : h1 = h2 := le_antisymm h12 hfle
          exact hce (by rw [h12eq])
        · have hc2e : ⌈h2⌉ = ⌊h2⌋ + 1 := by
            have hup := Int.ceil_le_floor_add_one h2
            have hlow : ⌊h2⌋ < ⌈h2⌉ := by
              by_contra hc
              push_neg at hc
              have hle2 : h2 ≤ ((⌊h2⌋ : ℤ) : ℚ) :=
                le_trans (Int.le_ceil h2) (by exact_mod_cast hc)
              linarith
            omega
          exact hce (by rw [hc1e, hc2e, hfe])
      have hz : h1 - ((⌊h1⌋ : ℤ) : ℚ) = 0 := by linarith
      rw [hz, hfe]
      have hmul := mul_nonneg hfr2a (sub_nonneg.mpr hab2)
      linarith
  · have hflt : ⌊h1⌋ < ⌊h2⌋ := lt_of_le_of_ne hff hfe
    have hmid : (⌈h1⌉).toNat ≤ (⌊h2⌋).toNat := by
      have := Int.ceil_le_floor_add_one h1
      omega
    have hbmid : s.getD (⌈h1⌉).toNat 0 ≤ s.getD (⌊h2⌋).toNat 0 :=
      getD_sorted_mono hs hmid hidxf2
    have hv1 : s.getD (⌊h1⌋).toNat 0 +
        (h1 - ((⌊h1⌋ : ℤ) : ℚ)) * (s.getD (⌈h1⌉).toNat 0 - s.getD (⌊h1⌋).toNat 0) ≤
        s.getD (⌈h1⌉).toNat 0 := by
      have hmul := mul_le_mul_of_nonneg_right hfr1b (sub_nonneg.mpr hab1)
      linarith
    have hv2 : s.getD (⌊h2⌋).toNat 0 ≤ s.getD (⌊h2⌋).toNat 0 +
        (h2 - ((⌊h2⌋ : ℤ) : ℚ)) * (s.getD (⌈h2⌉).toNat 0 - s.getD (⌊h2⌋).toNat 0) := by
      have hmul := mul_nonneg hfr2a (sub_nonneg.mpr hab2)
      linarith
    linarith

/-- `np.percentile` is monotone in the percentile argument within
`[0, 100]` on non-empty data. -/
lemma percentile_mono (xs : List ℚ) {p q vp vq : ℚ}
    (hp0 : 0 ≤ p) (hq : q ≤ 100) (hpq : p ≤ q)
    (hvp : percentile xs p = some vp) (hvq : percentile xs q = some vq) : vp ≤ vq := by
  cases xs with
  | nil => simp [percentile] at hvp
  | cons a t =>
    simp only [percentile, Option.some.injEq] at hvp hvq
    rw [← hvp, ← hvq]
    have hc : (0 : ℚ) ≤ ((a :: t).length : ℚ) - 1 := by
      simp only [List.length_cons]
      push_cast
      linarith
    apply interpAt_mono _ (sortSeries_sorted (a :: t))
    · exact mul_nonneg (div_nonneg hp0 (by norm_num)) hc
    · exact mul_le_mul_of_nonneg_right
        ((div_le_div_iff_of_pos_right (by norm_num)).mpr hpq) hc
    · rw [sortSeries_length]
      calc q / 100 * (((a :: t).length : ℚ) - 1) ≤ 1 * (((a :: t).length : ℚ) - 1) :=
        mul_le_mul_of_nonneg_right (by linarith) hc
      _ = ((a :: t).length : ℚ) - 1 := one_mul _

/-- C10: for every non-empty raw series, the three components of the
confidence bound are ordered: the 5th percentile is at most the 50th,
which is at most the 95th. -/
theorem confidence_bound_ordered (series : List ℚ) (h : series ≠ []) :
    ∃ l m u, percentile series 5 = some l ∧ percentile series 50 = some m ∧
      percentile series 95 = some u ∧ l ≤ m ∧ m ≤ u := by
  cases series with
  | nil => exact absurd rfl h
  | cons a t =>
    refine ⟨_, _, _, rfl, rfl, rfl, ?_, ?_⟩
    · exact percentile_mono (a :: t) (by norm_num) (by norm_num) (by norm_num) rfl rfl
    · exact percentile_mono (a :: t) (by norm_num) (by norm_num) (by norm_num) rfl rfl

/-- Witness for C10 on the series `[0, 10]`: bounds (1/2, 5, 19/2). -/
theorem confidence_bound_ordered_witness :
    ∃ l m u, percentile [0, 10] 5 = some l ∧ percentile [0, 10] 50 = some m ∧
      percentile [0, 10] 95 = some u ∧ l ≤ m ∧ m ≤ u :=
  confidence_bound_ordered [0, 10] (by simp)

end Radon
